import Mathlib

/-!
Verification development for the SBV analysis pipeline.

The definitions below are a shallow embedding of the Python sources:

* Numeric analysis functions over exact rationals and reals:
  `src/analysis/constriction.py`, `src/analysis/likely_lovely.py`,
  `src/analysis/readiness.py`.
* Orchestration (`src/orchestrator/job_manager.py`): pure data model
  for tasks and jobs, a job-manager registry, and a small-step
  operational semantics for the semaphore-bounded concurrent execution
  performed by `process_job` / `_process_company`.

Machine floats in the source are modelled as exact rationals (`ℚ`)
where the arithmetic is field arithmetic, and as reals (`ℝ`) where the
source uses `math.pow`.  Wall-clock timestamps are modelled as
`Option Unit` markers (set / not set), which is all the specification
claims depend on.
-/

namespace SBV

/-- Model of a bottleneck record as consumed by the analysis functions:
`constriction.py` reads the key `severity_adj`; `readiness.py` reads the
optional key `verified` (absent key modelled as `none`, matching the
dict lookup default used by the source). -/
structure Bottleneck where
  severity_adj : ℚ
  verified : Option String
deriving DecidableEq, Repr

/-- Maximum of a list of rationals, as Python's builtin max over a
non-empty list; returns 0 on the empty list (the source never takes the
max of an empty list because of the early-return guard). -/
def listMax : List ℚ → ℚ
  | [] => 0
  | x :: xs => xs.foldl max x

/-- Median of a list of rationals following Python's statistics.median:
sort, take the middle element for odd length, the mean of the two middle
elements for even length.  The source only calls it on non-empty lists. -/
def median (l : List ℚ) : ℚ :=
  let s := l.insertionSort (· ≤ ·)
  let n := l.length
  if n % 2 = 1 then s.getD (n / 2) 0
  else (s.getD (n / 2 - 1) 0 + s.getD (n / 2) 0) / 2

/-- Result record of calculate_constriction_index
(src/analysis/constriction.py). -/
structure ConstrictionResult where
  k : ℕ
  S : ℚ
  Md : ℚ
  Mx : ℚ
  Cx : ℚ
  S_norm_fix : ℚ
  Md_norm_fix : ℚ
  Mx_norm_fix : ℚ
  Cx_norm_fix : ℚ
  CI_fix : ℚ
  CI_mode : String
  CI_cohort : Option ℚ
deriving DecidableEq, Repr

/-- Shallow embedding of calculate_constriction_index
(src/analysis/constriction.py, lines 6-76). -/
def calculate_constriction_index (bottlenecks : List Bottleneck) (mode : String) :
    ConstrictionResult :=
  if bottlenecks = [] then
    { k := 0, S := 0, Md := 0, Mx := 0, Cx := 0,
      S_norm_fix := 0, Md_norm_fix := 0, Mx_norm_fix := 0, Cx_norm_fix := 0,
      CI_fix := 0, CI_mode := mode, CI_cohort := none }
  else
    let severities := bottlenecks.map (fun bn => bn.severity_adj)
    let k := severities.length
    let S := severities.sum
    let Md := median severities
    let Mx := listMax severities
    let Cx := Mx - Md
    let S_norm_fix := S / 35
    let Md_norm_fix := Md / 5
    let Mx_norm_fix := Mx / 5
    let Cx_norm_fix := Cx / 5
    let CI_fix := 0.4 * S_norm_fix + 0.3 * Mx_norm_fix + 0.2 * Md_norm_fix +
      0.1 * Cx_norm_fix
    { k := k, S := S, Md := Md, Mx := Mx, Cx := Cx,
      S_norm_fix := S_norm_fix, Md_norm_fix := Md_norm_fix,
      Mx_norm_fix := Mx_norm_fix, Cx_norm_fix := Cx_norm_fix,
      CI_fix := CI_fix, CI_mode := mode, CI_cohort := none }

/-- Result record of calculate_likely_lovely
(src/analysis/likely_lovely.py). -/
structure LLResult where
  E : ℤ
  T : ℤ
  SP : ℤ
  LS_norm : ℚ
  LV : ℤ
  LV_norm : ℚ
  CCF : ℚ
deriving DecidableEq, Repr

/-- Shallow embedding of calculate_likely_lovely
(src/analysis/likely_lovely.py, lines 5-49).  The source validates the
four ratings in the order E, T, SP, LV and raises ValueError at the
first failure; raising is modelled as the error branch of Except. -/
def calculate_likely_lovely (E T SP LV : ℤ) : Except String LLResult :=
  if ¬ (1 ≤ E ∧ E ≤ 5) then
    Except.error ("E must be between 1 and 5, got " ++ toString E)
  else if ¬ (1 ≤ T ∧ T ≤ 5) then
    Except.error ("T must be between 1 and 5, got " ++ toString T)
  else if ¬ (1 ≤ SP ∧ SP ≤ 5) then
    Except.error ("SP must be between 1 and 5, got " ++ toString SP)
  else if ¬ (1 ≤ LV ∧ LV ≤ 5) then
    Except.error ("LV must be between 1 and 5, got " ++ toString LV)
  else
    let LS_norm : ℚ := (0.5 * (E : ℚ) + 0.25 * (T : ℚ) + 0.25 * (SP : ℚ)) / 5
    let LV_norm : ℚ := (LV : ℚ) / 5
    let CCF : ℚ := LS_norm * LV_norm
    Except.ok { E := E, T := T, SP := SP, LS_norm := LS_norm,
                LV := LV, LV_norm := LV_norm, CCF := CCF }

/-- Verification-score table of src/analysis/readiness.py (lines 32-36,
together with the 0.8 fallback of the dict lookup on line 42). -/
noncomputable def verificationScore (tag : String) : ℝ :=
  if tag = "verified" then 1
  else if tag = "partial" then 0.8
  else if tag = "unverified" then 0.6
  else 0.8

/-- Verification score of one bottleneck: the source reads
bn.get("verified", "partial"), so an absent tag counts as "partial". -/
noncomputable def bottleneckVS (bn : Bottleneck) : ℝ :=
  verificationScore (bn.verified.getD "partial")

/-- Average verification score across the bottlenecks; 0.8 when the
list is empty (src/analysis/readiness.py, lines 40-46). -/
noncomputable def avgVS (bottlenecks : List Bottleneck) : ℝ :=
  if bottlenecks = [] then 0.8
  else ((bottlenecks.map bottleneckVS).sum) / (bottlenecks.length : ℝ)

/-- Bool test for a bottleneck counting as unverified or partial, as in
src/analysis/readiness.py lines 65-68. -/
def isUnverifiedTag (bn : Bottleneck) : Bool :=
  decide ((bn.verified.getD "partial") ∈ (["unverified", "partial"] : List String))

/-- Fraction of bottlenecks tagged partial or unverified; 0.5 when the
list is empty (src/analysis/readiness.py, lines 63-71). -/
noncomputable def pUnver (bottlenecks : List Bottleneck) : ℝ :=
  if bottlenecks = [] then 0.5
  else ((bottlenecks.countP isUnverifiedTag : ℕ) : ℝ) / (bottlenecks.length : ℝ)

/-- Result record of calculate_readiness_index
(src/analysis/readiness.py). -/
structure ReadinessResult where
  TRL_raw : ℝ
  IRL_raw : ℝ
  ORL_raw : ℝ
  RCL_raw : ℝ
  TRL_adj : ℝ
  IRL_adj : ℝ
  ORL_adj : ℝ
  RCL_adj : ℝ
  RI : ℝ
  EP : ℝ
  RI_skeptical : ℝ
  RAR : ℝ

/-- Shallow embedding of calculate_readiness_index
(src/analysis/readiness.py, lines 6-94).  The fourth root computed by
math.pow(x, 0.25) is modelled with the real power function. -/
noncomputable def calculate_readiness_index (TRL_raw IRL_raw ORL_raw RCL_raw : ℝ)
    (bottlenecks : List Bottleneck) (CI_fix : ℝ) (alpha : ℝ) : ReadinessResult :=
  let avg_vs := avgVS bottlenecks
  let TRL_adj := TRL_raw * avg_vs
  let IRL_adj := IRL_raw * avg_vs
  let ORL_adj := ORL_raw * avg_vs
  let RCL_adj := RCL_raw * avg_vs
  let RI : ℝ := ((TRL_adj / 9) * (IRL_adj / 9) * (ORL_adj / 9) * (RCL_adj / 9)) ^
    (0.25 : ℝ)
  let p_unver := pUnver bottlenecks
  let EP := 1 - alpha * p_unver
  let RI_skeptical := RI * EP
  let RAR := RI_skeptical * CI_fix
  { TRL_raw := TRL_raw, IRL_raw := IRL_raw, ORL_raw := ORL_raw, RCL_raw := RCL_raw,
    TRL_adj := TRL_adj, IRL_adj := IRL_adj, ORL_adj := ORL_adj, RCL_adj := RCL_adj,
    RI := RI, EP := EP, RI_skeptical := RI_skeptical, RAR := RAR }

/-- Job and task status enum of src/orchestrator/job_manager.py
(lines 17-22). -/
inductive JobStatus where
  | pending
  | processing
  | completed
  | failed
deriving DecidableEq, Repr

/-- Individual company analysis task (src/orchestrator/job_manager.py,
lines 25-34).  The result payload produced by the analysis protocol is
abstract, so the task type is parametric in it; timestamps are modelled
as set / not-set markers. -/
structure CompanyTask (R : Type) where
  company_name : String
  homepage : Option String
  status : JobStatus
  result : Option R
  error : Option String
  started_at : Option Unit
  completed_at : Option Unit
deriving DecidableEq, Repr

/-- Analysis job tracking multiple companies
(src/orchestrator/job_manager.py, lines 37-45). -/
structure AnalysisJob (R : Type) where
  job_id : String
  companies : List (CompanyTask R)
  status : JobStatus
  started_at : Option Unit
  completed_at : Option Unit
deriving DecidableEq, Repr

/-- Progress record returned by the AnalysisJob.progress property
(src/orchestrator/job_manager.py, lines 47-62). -/
structure Progress where
  total : ℕ
  completed : ℕ
  failed : ℕ
  processing : ℕ
  pending : ℕ
  percent : ℚ
deriving DecidableEq, Repr

/-- Shallow embedding of the AnalysisJob.progress property
(src/orchestrator/job_manager.py, lines 47-62). -/
def progress {R : Type} (job : AnalysisJob R) : Progress :=
  let total := job.companies.length
  let completed := job.companies.countP (fun c => c.status == JobStatus.completed)
  let failed := job.companies.countP (fun c => c.status == JobStatus.failed)
  let processing := job.companies.countP (fun c => c.status == JobStatus.processing)
  { total := total, completed := completed, failed := failed,
    processing := processing,
    pending := total - completed - failed - processing,
    percent := if 0 < total then (completed : ℚ) / (total : ℚ) * 100 else 0 }

/-- Descriptor accepted by create_job: a dict with company_name and an
optional homepage (src/orchestrator/job_manager.py, lines 72-93). -/
structure CompanyDesc where
  company_name : String
  homepage : Option String
deriving DecidableEq, Repr

/-- In-memory state of a JobManager: its registry of jobs, a dict from
job id to job (src/orchestrator/job_manager.py, lines 68-69). -/
structure JobManagerState (R : Type) where
  jobs : List (String × AnalysisJob R)
deriving DecidableEq, Repr

/-- Fresh Pending task built by create_job for one descriptor
(src/orchestrator/job_manager.py, lines 87-93 with the dataclass
defaults of lines 25-34). -/
def mkTask {R : Type} (c : CompanyDesc) : CompanyTask R :=
  { company_name := c.company_name, homepage := c.homepage,
    status := JobStatus.pending, result := none, error := none,
    started_at := none, completed_at := none }

/-- Shallow embedding of JobManager.create_job
(src/orchestrator/job_manager.py, lines 72-103).  The uuid4 job id is
an input; the function performs no validation, builds one Pending task
per descriptor in order, registers the job and returns it. -/
def create_job {R : Type} (mgr : JobManagerState R) (jobId : String)
    (companies : List CompanyDesc) : JobManagerState R × AnalysisJob R :=
  let tasks := companies.map mkTask
  let job : AnalysisJob R :=
    { job_id := jobId, companies := tasks, status := JobStatus.pending,
      started_at := none, completed_at := none }
  ({ jobs := (jobId, job) :: mgr.jobs }, job)

/-- Shallow embedding of JobManager.get_job
(src/orchestrator/job_manager.py, lines 105-107): dict lookup returning
the absent option for unknown ids. -/
def get_job {R : Type} (mgr : JobManagerState R) (jobId : String) :
    Option (AnalysisJob R) :=
  mgr.jobs.lookup jobId

/-- Entry phase of JobManager.process_job
(src/orchestrator/job_manager.py, lines 119-124): raises ValueError for
an unknown job id before touching any state, otherwise marks the job
Processing and records started_at. -/
def process_job_entry {R : Type} (mgr : JobManagerState R) (jobId : String) :
    Except String (AnalysisJob R) :=
  match get_job mgr jobId with
  | none => Except.error ("Job " ++ jobId ++ " not found")
  | some job =>
      Except.ok { job with status := JobStatus.processing, started_at := some () }

/-- Configured limiter capacity, settings.max_concurrent_analyses
(src/config.py, line 33). -/
def max_concurrent_analyses : ℕ := 10

/-- Mutation performed by _process_company right after acquiring a
semaphore slot (src/orchestrator/job_manager.py, lines 156-158): the
task enters Processing and its start timestamp is recorded. -/
def startTask {R : Type} (t : CompanyTask R) : CompanyTask R :=
  { t with status := JobStatus.processing, started_at := some () }

/-- Terminal mutation performed by _process_company on a task.  The
environment outcome is the combined result of analyze_company plus the
persistence block: on success (lines 248-250) the result is stored and
the task Completed; on any exception (lines 252-256) the stringified
exception is stored as the error and the task Failed.  Either way
completed_at is recorded. -/
def applyOutcome {R : Type} (o : Except String R) (t : CompanyTask R) :
    CompanyTask R :=
  match o with
  | Except.ok r =>
      { t with result := some r, status := JobStatus.completed,
               completed_at := some () }
  | Except.error e =>
      { t with error := some e, status := JobStatus.failed,
               completed_at := some () }

/-- Execution phase of one scheduled _process_company coroutine with
respect to the semaphore: not yet started; holding a slot and running;
finished (terminal status written) but still inside the async-with
block; finished with the slot released. -/
inductive Phase where
  | idle
  | holding
  | doneHolding
  | released
deriving DecidableEq, Repr

/-- State of the concurrent execution inside process_job: the number of
free semaphore slots and, per scheduled task, its phase and its task
record. -/
structure SchedState (R : Type) where
  sem : ℕ
  tasks : List (Phase × CompanyTask R)
deriving DecidableEq, Repr

/-- Initial scheduler state of process_job (lines 128-135): the
semaphore holds the configured capacity and every task of the job is
scheduled but not yet started. -/
def initState {R : Type} (C : ℕ) (ts : List (CompanyTask R)) : SchedState R :=
  { sem := C, tasks := ts.map (fun t => (Phase.idle, t)) }

/-- Small-step transition relation for the interleaved execution of the
_process_company coroutines, parametrised by the outcome environment:
a coroutine may acquire a free slot and enter Processing, finish its
work writing its terminal record, and release its slot on leaving the
async-with block.  Release is unconditional on the exit path taken. -/
inductive Step {R : Type} (out : ℕ → Except String R) :
    SchedState R → SchedState R → Prop where
  | acquire (s : SchedState R) (i : ℕ) (h : i < s.tasks.length)
      (hphase : (s.tasks.get ⟨i, h⟩).1 = Phase.idle) (hsem : 0 < s.sem) :
      Step out s
        { sem := s.sem - 1,
          tasks := s.tasks.set i (Phase.holding, startTask (s.tasks.get ⟨i, h⟩).2) }
  | finish (s : SchedState R) (i : ℕ) (h : i < s.tasks.length)
      (hphase : (s.tasks.get ⟨i, h⟩).1 = Phase.holding) :
      Step out s
        { sem := s.sem,
          tasks := s.tasks.set i
            (Phase.doneHolding, applyOutcome (out i) (s.tasks.get ⟨i, h⟩).2) }
  | release (s : SchedState R) (i : ℕ) (h : i < s.tasks.length)
      (hphase : (s.tasks.get ⟨i, h⟩).1 = Phase.doneHolding) :
      Step out s
        { sem := s.sem + 1,
          tasks := s.tasks.set i (Phase.released, (s.tasks.get ⟨i, h⟩).2) }

/-- Reachability under the scheduler step relation. -/
def Reach {R : Type} (out : ℕ → Except String R) :
    SchedState R → SchedState R → Prop :=
  Relation.ReflTransGen (Step out)

/-- A state in which every scheduled coroutine has finished and
released its slot: exactly the condition under which the gather call of
process_job (line 137) returns. -/
def Complete {R : Type} (s : SchedState R) : Prop :=
  ∀ p ∈ s.tasks, p.1 = Phase.released

/-- Number of coroutines currently holding a semaphore slot. -/
def heldCount {R : Type} (s : SchedState R) : ℕ :=
  s.tasks.countP (fun p => p.1 == Phase.holding || p.1 == Phase.doneHolding)

/-- Number of tasks currently in the Processing state. -/
def processingCount {R : Type} (s : SchedState R) : ℕ :=
  s.tasks.countP (fun p => p.2.status == JobStatus.processing)

/-- Value invariant of one scheduled task: its record is fully
determined by its own initial record, its own outcome, and its phase. -/
def TaskInv {R : Type} (o : Except String R) (t0 : CompanyTask R) :
    Phase × CompanyTask R → Prop
  | (Phase.idle, t) => t = t0
  | (Phase.holding, t) => t = startTask t0
  | (Phase.doneHolding, t) => t = applyOutcome o (startTask t0)
  | (Phase.released, t) => t = applyOutcome o (startTask t0)

/-- Global invariant of the scheduler: the task list keeps its length,
free slots plus held slots equal the capacity, and every task record
satisfies its value invariant. -/
structure Inv {R : Type} (C : ℕ) (out : ℕ → Except String R)
    (ts0 : List (CompanyTask R)) (s : SchedState R) : Prop where
  len : s.tasks.length = ts0.length
  sem_le : s.sem + heldCount s = C
  task_inv : ∀ i (h : i < s.tasks.length),
    TaskInv (out i) (ts0.get ⟨i, len ▸ h⟩) (s.tasks.get ⟨i, h⟩)

/-- Final bookkeeping of process_job (lines 140-143): record
completed_at, install the final task records, and set the job status to
Completed exactly when every task completed, otherwise Failed. -/
def finalize_job {R : Type} (job : AnalysisJob R)
    (finalTasks : List (CompanyTask R)) : AnalysisJob R :=
  { job with companies := finalTasks,
             completed_at := some (),
             status :=
               if finalTasks.all (fun c => c.status == JobStatus.completed)
               then JobStatus.completed else JobStatus.failed }

/-- Intermediate states of the purely sequential schedule: the first n
tasks have been fully processed and released, the rest are untouched,
and all slots are free. -/
def seqState {R : Type} (C : ℕ) (out : ℕ → Except String R)
    (ts0 : List (CompanyTask R)) (n : ℕ) : SchedState R :=
  { sem := C,
    tasks := List.ofFn (fun j : Fin ts0.length =>
      if (j : ℕ) < n then
        (Phase.released, applyOutcome (out j) (startTask (ts0.get j)))
      else (Phase.idle, ts0.get j)) }

/-! Helper lemmas about list maxima and medians. -/

theorem foldl_max_le {b x : ℚ} {xs : List ℚ} (hx : x ≤ b) (h : ∀ a ∈ xs, a ≤ b) :
    xs.foldl max x ≤ b := by
  induction xs generalizing x with
  | nil => simpa using hx
  | cons a as ih =>
      simp only [List.foldl_cons]
      exact ih (max_le hx (h a (by simp))) (fun y hy => h y (by simp [hy]))

theorem le_foldl_max {x : ℚ} {xs : List ℚ} : x ≤ xs.foldl max x := by
  induction xs generalizing x with
  | nil => simp
  | cons a as ih => exact le_trans (le_max_left x a) ih

theorem le_foldl_max_of_mem {a x : ℚ} {xs : List ℚ} (h : a ∈ xs) :
    a ≤ xs.foldl max x := by
  induction xs generalizing x with
  | nil => simp at h
  | cons b bs ih =>
      simp only [List.foldl_cons]
      rcases List.mem_cons.mp h with rfl | hb
      · exact le_trans (le_max_right x a) le_foldl_max
      · exact ih hb

theorem listMax_le {b : ℚ} {l : List ℚ} (hne : l ≠ []) (h : ∀ a ∈ l, a ≤ b) :
    listMax l ≤ b := by
  match l, hne with
  | x :: xs, _ =>
      exact foldl_max_le (h x (by simp)) (fun y hy => h y (by simp [hy]))

theorem le_listMax {a : ℚ} {l : List ℚ} (h : a ∈ l) : a ≤ listMax l := by
  match l with
  | x :: xs =>
      rcases List.mem_cons.mp h with rfl | hx
      · exact le_foldl_max
      · exact le_foldl_max_of_mem hx

theorem listMax_nonneg {l : List ℚ} (hne : l ≠ []) (h : ∀ a ∈ l, 0 ≤ a) :
    0 ≤ listMax l := by
  match l, hne with
  | x :: xs, _ =>
      exact le_trans (h x (by simp)) (le_listMax (by simp : x ∈ x :: xs))

theorem median_bounds {l : List ℚ} {lo hi : ℚ} (hne : l ≠ [])
    (h : ∀ a ∈ l, lo ≤ a ∧ a ≤ hi) : lo ≤ median l ∧ median l ≤ hi := by
  have hperm := List.perm_insertionSort (· ≤ ·) l
  have hlen : (l.insertionSort (· ≤ ·)).length = l.length :=
    List.length_insertionSort (· ≤ ·) l
  have hmem : ∀ a ∈ l.insertionSort (· ≤ ·), lo ≤ a ∧ a ≤ hi :=
    fun a ha => h a (hperm.mem_iff.mp ha)
  have hn : 0 < l.length := List.length_pos.mpr hne
  have hm : median l =
      if l.length % 2 = 1 then (l.insertionSort (· ≤ ·)).getD (l.length / 2) 0
      else ((l.insertionSort (· ≤ ·)).getD (l.length / 2 - 1) 0 +
        (l.insertionSort (· ≤ ·)).getD (l.length / 2) 0) / 2 := rfl
  have hidx2 : l.length / 2 < (l.insertionSort (· ≤ ·)).length := by
    rw [hlen]; exact Nat.div_lt_self hn (by norm_num)
  have hidx1 : l.length / 2 - 1 < (l.insertionSort (· ≤ ·)).length :=
    lt_of_le_of_lt (Nat.sub_le _ _) hidx2
  by_cases hpar : l.length % 2 = 1
  · rw [hm, if_pos hpar, List.getD_eq_getElem _ _ hidx2]
    exact hmem _ (List.getElem_mem hidx2)
  · rw [hm, if_neg hpar, List.getD_eq_getElem _ _ hidx1,
      List.getD_eq_getElem _ _ hidx2]
    have h1 := hmem _ (List.getElem_mem hidx1)
    have h2 := hmem _ (List.getElem_mem hidx2)
    constructor
    · linarith [h1.1, h2.1]
    · linarith [h1.2, h2.2]

/-- On a non-empty bottleneck list the constriction result is the
record of severity statistics and their fixed-scale composition. -/
theorem constriction_nonempty_eq (bns : List Bottleneck) (mode : String)
    (hne : bns ≠ []) :
    calculate_constriction_index bns mode =
      { k := (bns.map (fun bn => bn.severity_adj)).length,
        S := (bns.map (fun bn => bn.severity_adj)).sum,
        Md := median (bns.map (fun bn => bn.severity_adj)),
        Mx := listMax (bns.map (fun bn => bn.severity_adj)),
        Cx := listMax (bns.map (fun bn => bn.severity_adj)) -
          median (bns.map (fun bn => bn.severity_adj)),
        S_norm_fix := (bns.map (fun bn => bn.severity_adj)).sum / 35,
        Md_norm_fix := median (bns.map (fun bn => bn.severity_adj)) / 5,
        Mx_norm_fix := listMax (bns.map (fun bn => bn.severity_adj)) / 5,
        Cx_norm_fix := (listMax (bns.map (fun bn => bn.severity_adj)) -
          median (bns.map (fun bn => bn.severity_adj))) / 5,
        CI_fix := 0.4 * ((bns.map (fun bn => bn.severity_adj)).sum / 35) +
          0.3 * (listMax (bns.map (fun bn => bn.severity_adj)) / 5) +
          0.2 * (median (bns.map (fun bn => bn.severity_adj)) / 5) +
          0.1 * ((listMax (bns.map (fun bn => bn.severity_adj)) -
            median (bns.map (fun bn => bn.severity_adj))) / 5),
        CI_mode := mode, CI_cohort := none } := by
  simp only [calculate_constriction_index, if_neg hne]

/-- C4: for every bottleneck list, calculate_constriction_index returns
CI = 0.4 (S/35) + 0.3 (Mx/5) + 0.2 (Md/5) + 0.1 (Cx/5) where S, Md, Mx
are the sum, median and maximum of the severity_adj values and
Cx = Mx - Md; for the empty list every component and CI are exactly 0. -/
theorem constriction_index_formula (bns : List Bottleneck) (mode : String) :
    (bns ≠ [] →
      (calculate_constriction_index bns mode).S =
        (bns.map (fun bn => bn.severity_adj)).sum ∧
      (calculate_constriction_index bns mode).Md =
        median (bns.map (fun bn => bn.severity_adj)) ∧
      (calculate_constriction_index bns mode).Mx =
        listMax (bns.map (fun bn => bn.severity_adj)) ∧
      (calculate_constriction_index bns mode).Cx =
        (calculate_constriction_index bns mode).Mx -
        (calculate_constriction_index bns mode).Md ∧
      (calculate_constriction_index bns mode).CI_fix =
        0.4 * ((calculate_constriction_index bns mode).S / 35) +
        0.3 * ((calculate_constriction_index bns mode).Mx / 5) +
        0.2 * ((calculate_constriction_index bns mode).Md / 5) +
        0.1 * ((calculate_constriction_index bns mode).Cx / 5)) ∧
    (bns = [] →
      (calculate_constriction_index bns mode).S = 0 ∧
      (calculate_constriction_index bns mode).Md = 0 ∧
      (calculate_constriction_index bns mode).Mx = 0 ∧
      (calculate_constriction_index bns mode).Cx = 0 ∧
      (calculate_constriction_index bns mode).S_norm_fix = 0 ∧
      (calculate_constriction_index bns mode).Md_norm_fix = 0 ∧
      (calculate_constriction_index bns mode).Mx_norm_fix = 0 ∧
      (calculate_constriction_index bns mode).Cx_norm_fix = 0 ∧
      (calculate_constriction_index bns mode).CI_fix = 0) := by
  constructor
  · intro hne
    rw [constriction_nonempty_eq bns mode hne]
    exact ⟨rfl, rfl, rfl, rfl, rfl⟩
  · intro he
    subst he
    simp [calculate_constriction_index]

/-- Witness for C4: the formula theorem applied to a concrete singleton
bottleneck list and to the empty list. -/
theorem constriction_index_formula_witness :
    ((calculate_constriction_index [⟨3, none⟩] "fixed").CI_fix =
      0.4 * ((calculate_constriction_index [⟨3, none⟩] "fixed").S / 35) +
      0.3 * ((calculate_constriction_index [⟨3, none⟩] "fixed").Mx / 5) +
      0.2 * ((calculate_constriction_index [⟨3, none⟩] "fixed").Md / 5) +
      0.1 * ((calculate_constriction_index [⟨3, none⟩] "fixed").Cx / 5)) ∧
    (calculate_constriction_index ([] : List Bottleneck) "fixed").CI_fix = 0 :=
  ⟨(((constriction_index_formula [⟨3, none⟩] "fixed").1 (by simp)).2.2.2.2),
   ((constriction_index_formula [] "fixed").2 rfl).2.2.2.2.2.2.2.2⟩

/-- C7 (amended): for non-empty bottleneck lists of at most 11
bottlenecks whose severity_adj values lie in [0,5], the CI returned by
calculate_constriction_index lies in [0, 8/7], where 8/7 is about 1.14;
for empty lists CI equals 0 exactly.  Without a bound on the number of
bottlenecks no constant bounds CI, see the counterexample. -/
theorem constriction_index_bounded (bns : List Bottleneck) (mode : String)
    (hne : bns ≠ []) (hk : bns.length ≤ 11)
    (hsev : ∀ bn ∈ bns, 0 ≤ bn.severity_adj ∧ bn.severity_adj ≤ 5) :
    (0 ≤ (calculate_constriction_index bns mode).CI_fix ∧
      (calculate_constriction_index bns mode).CI_fix ≤ 8 / 7) ∧
    (calculate_constriction_index [] mode).CI_fix = 0 := by
  have hsev' : ∀ a ∈ bns.map (fun bn => bn.severity_adj), 0 ≤ a ∧ a ≤ 5 := by
    intro a ha
    rcases List.mem_map.mp ha with ⟨bn, hbn, rfl⟩
    exact hsev bn hbn
  have hne' : bns.map (fun bn => bn.severity_adj) ≠ [] := by
    simpa [List.map_eq_nil_iff] using hne
  have hS0 : 0 ≤ (bns.map (fun bn => bn.severity_adj)).sum :=
    List.sum_nonneg (fun x hx => (hsev' x hx).1)
  have hS : (bns.map (fun bn => bn.severity_adj)).sum ≤
      ((bns.map (fun bn => bn.severity_adj)).length : ℚ) * 5 := by
    have := List.sum_le_card_nsmul (bns.map (fun bn => bn.severity_adj)) 5
      (fun x hx => (hsev' x hx).2)
    simpa [nsmul_eq_mul] using this
  have hlen : ((bns.map (fun bn => bn.severity_adj)).length : ℚ) ≤ 11 := by
    rw [List.length_map]
    exact_mod_cast hk
  have hMx0 : 0 ≤ listMax (bns.map (fun bn => bn.severity_adj)) :=
    listMax_nonneg hne' (fun x hx => (hsev' x hx).1)
  have hMx5 : listMax (bns.map (fun bn => bn.severity_adj)) ≤ 5 :=
    listMax_le hne' (fun x hx => (hsev' x hx).2)
  have hMd := median_bounds hne' hsev'
  refine ⟨?_, by simp [calculate_constriction_index]⟩
  rw [constriction_nonempty_eq bns mode hne]
  dsimp only
  constructor
  · have h4 : (0.4 : ℚ) = 2 / 5 := by norm_num
    have h3 : (0.3 : ℚ) = 3 / 10 := by norm_num
    have h2 : (0.2 : ℚ) = 1 / 5 := by norm_num
    have h1 : (0.1 : ℚ) = 1 / 10 := by norm_num
    rw [h4, h3, h2, h1]
    linarith [hMd.1, hMd.2]
  · have h4 : (0.4 : ℚ) = 2 / 5 := by norm_num
    have h3 : (0.3 : ℚ) = 3 / 10 := by norm_num
    have h2 : (0.2 : ℚ) = 1 / 5 := by norm_num
    have h1 : (0.1 : ℚ) = 1 / 10 := by norm_num
    rw [h4, h3, h2, h1]
    linarith [hMd.1, hMd.2]

/-- Witness for C7: the bounds theorem applied to a concrete
three-element bottleneck list. -/
theorem constriction_index_bounded_witness :
    (0 ≤ (calculate_constriction_index [⟨5, none⟩, ⟨4, none⟩, ⟨3, none⟩]
        "fixed").CI_fix ∧
      (calculate_constriction_index [⟨5, none⟩, ⟨4, none⟩, ⟨3, none⟩]
        "fixed").CI_fix ≤ 8 / 7) ∧
    (calculate_constriction_index [] "fixed").CI_fix = 0 :=
  constriction_index_bounded [⟨5, none⟩, ⟨4, none⟩, ⟨3, none⟩] "fixed"
    (by simp) (by simp) (by intro bn hbn; fin_cases hbn <;> norm_num)

/-- Counterexample for C7 as stated: 12 bottlenecks of severity 5 (all
severities inside [0,5], list non-empty) drive CI_fix to 83/70, which
is about 1.186 and exceeds 8/7 (about 1.143, the generous reading of
the claimed bound of about 1.14): the S/35 normalization is unbounded
in the number of bottlenecks. -/
theorem constriction_index_exceeds_claimed_bound :
    (calculate_constriction_index
      (List.replicate 12 ⟨5, none⟩) "fixed").CI_fix = 83 / 70 ∧
    ¬ ((calculate_constriction_index
      (List.replicate 12 ⟨5, none⟩) "fixed").CI_fix ≤ 8 / 7) ∧
    List.replicate 12 (⟨5, none⟩ : Bottleneck) ≠ [] ∧
    (∀ bn ∈ List.replicate 12 (⟨5, none⟩ : Bottleneck),
      0 ≤ bn.severity_adj ∧ bn.severity_adj ≤ 5) := by
  have hne : List.replicate 12 (⟨5, none⟩ : Bottleneck) ≠ [] := by simp
  have hmap : (List.replicate 12 (⟨5, none⟩ : Bottleneck)).map
      (fun bn => bn.severity_adj) = List.replicate 12 (5 : ℚ) := by
    simp [List.map_replicate]
  have hsum : (List.replicate 12 (5 : ℚ)).sum = 60 := by
    rw [List.sum_replicate, nsmul_eq_mul]
    norm_num
  have hsorted : List.insertionSort (· ≤ ·) (List.replicate 12 (5 : ℚ)) =
      List.replicate 12 (5 : ℚ) :=
    List.Sorted.insertionSort_eq (List.pairwise_replicate.mpr (Or.inr le_rfl))
  have hmed : median (List.replicate 12 (5 : ℚ)) = 5 := by
    have hm : median (List.replicate 12 (5 : ℚ)) =
        if (List.replicate 12 (5 : ℚ)).length % 2 = 1 then
          (List.insertionSort (· ≤ ·) (List.replicate 12 (5 : ℚ))).getD
            ((List.replicate 12 (5 : ℚ)).length / 2) 0
        else ((List.insertionSort (· ≤ ·) (List.replicate 12 (5 : ℚ))).getD
            ((List.replicate 12 (5 : ℚ)).length / 2 - 1) 0 +
          (List.insertionSort (· ≤ ·) (List.replicate 12 (5 : ℚ))).getD
            ((List.replicate 12 (5 : ℚ)).length / 2) 0) / 2 := rfl
    rw [hm, hsorted]
    norm_num [List.getD_eq_getElem, List.getElem_replicate]
  have hmax : listMax (List.replicate 12 (5 : ℚ)) = 5 := by
    refine le_antisymm ?_ (le_listMax ?_)
    · exact listMax_le (by simp) (by intro a ha; simp at ha; simp [ha])
    · simp [List.mem_replicate]
  have hci := constriction_nonempty_eq (List.replicate 12 ⟨5, none⟩) "fixed" hne
  refine ⟨?_, ?_, hne, ?_⟩
  · rw [hci]
    dsimp only
    rw [hmap, hsum, hmed, hmax]
    norm_num
  · rw [hci]
    dsimp only
    rw [hmap, hsum, hmed, hmax]
    norm_num
  · intro bn hbn
    rw [List.mem_replicate] at hbn
    rw [hbn.2]
    norm_num

/-- C5: for E, T, SP, LV each in [1,5], calculate_likely_lovely returns
LS_norm = (0.5 E + 0.25 T + 0.25 SP)/5, LV_norm = LV/5 and
CCF = LS_norm * LV_norm; in particular (1,1,1,1) yields LS_norm = 0.2,
LV_norm = 0.2, CCF = 0.04, (5,5,5,5) yields CCF = 1, and (5,1,1,5)
yields LS_norm = 0.6, CCF = 0.6; for any rating outside [1,5] it raises
the validation error. -/
theorem likely_lovely_spec (E T SP LV : ℤ) :
    ((1 ≤ E ∧ E ≤ 5) ∧ (1 ≤ T ∧ T ≤ 5) ∧ (1 ≤ SP ∧ SP ≤ 5) ∧ (1 ≤ LV ∧ LV ≤ 5) →
      calculate_likely_lovely E T SP LV = Except.ok
        { E := E, T := T, SP := SP,
          LS_norm := (0.5 * (E : ℚ) + 0.25 * (T : ℚ) + 0.25 * (SP : ℚ)) / 5,
          LV := LV, LV_norm := (LV : ℚ) / 5,
          CCF := ((0.5 * (E : ℚ) + 0.25 * (T : ℚ) + 0.25 * (SP : ℚ)) / 5) *
            ((LV : ℚ) / 5) }) ∧
    (¬ ((1 ≤ E ∧ E ≤ 5) ∧ (1 ≤ T ∧ T ≤ 5) ∧ (1 ≤ SP ∧ SP ≤ 5) ∧
        (1 ≤ LV ∧ LV ≤ 5)) →
      ∃ msg, calculate_likely_lovely E T SP LV = Except.error msg) ∧
    calculate_likely_lovely 1 1 1 1 = Except.ok
      { E := 1, T := 1, SP := 1, LS_norm := 0.2, LV := 1, LV_norm := 0.2,
        CCF := 0.04 } ∧
    calculate_likely_lovely 5 5 5 5 = Except.ok
      { E := 5, T := 5, SP := 5, LS_norm := 1, LV := 5, LV_norm := 1,
        CCF := 1 } ∧
    calculate_likely_lovely 5 1 1 5 = Except.ok
      { E := 5, T := 1, SP := 1, LS_norm := 0.6, LV := 5, LV_norm := 1,
        CCF := 0.6 } := by
  refine ⟨?_, ?_, ?_, ?_, ?_⟩
  · rintro ⟨hE, hT, hSP, hLV⟩
    unfold calculate_likely_lovely
    rw [if_neg (not_not_intro hE), if_neg (not_not_intro hT),
      if_neg (not_not_intro hSP), if_neg (not_not_intro hLV)]
  · intro h
    unfold calculate_likely_lovely
    by_cases hE : 1 ≤ E ∧ E ≤ 5
    · rw [if_neg (not_not_intro hE)]
      by_cases hT : 1 ≤ T ∧ T ≤ 5
      · rw [if_neg (not_not_intro hT)]
        by_cases hSP : 1 ≤ SP ∧ SP ≤ 5
        · rw [if_neg (not_not_intro hSP)]
          by_cases hLV : 1 ≤ LV ∧ LV ≤ 5
          · exact absurd ⟨hE, hT, hSP, hLV⟩ h
          · rw [if_pos hLV]
            exact ⟨_, rfl⟩
        · rw [if_pos hSP]
          exact ⟨_, rfl⟩
      · rw [if_pos hT]
        exact ⟨_, rfl⟩
    · rw [if_pos hE]
      exact ⟨_, rfl⟩
  · unfold calculate_likely_lovely
    norm_num [LLResult.mk.injEq]
  · unfold calculate_likely_lovely
    norm_num [LLResult.mk.injEq]
  · unfold calculate_likely_lovely
    norm_num [LLResult.mk.injEq]

/-- Witness for C5: the theorem applied at an in-range input and an
out-of-range input. -/
theorem likely_lovely_spec_witness :
    calculate_likely_lovely 2 3 4 5 = Except.ok
      { E := 2, T := 3, SP := 4,
        LS_norm := (0.5 * ((2 : ℤ) : ℚ) + 0.25 * ((3 : ℤ) : ℚ) +
          0.25 * ((4 : ℤ) : ℚ)) / 5,
        LV := 5, LV_norm := ((5 : ℤ) : ℚ) / 5,
        CCF := ((0.5 * ((2 : ℤ) : ℚ) + 0.25 * ((3 : ℤ) : ℚ) +
          0.25 * ((4 : ℤ) : ℚ)) / 5) * (((5 : ℤ) : ℚ) / 5) } ∧
    ∃ msg, calculate_likely_lovely 6 1 1 1 = Except.error msg :=
  ⟨(likely_lovely_spec 2 3 4 5).1 (by norm_num),
   (likely_lovely_spec 6 1 1 1).2.1 (by norm_num)⟩

/-! Helper bounds for the readiness computation. -/

theorem verificationScore_nonneg (tag : String) : 0 ≤ verificationScore tag := by
  unfold verificationScore
  split_ifs <;> norm_num

theorem avgVS_nonneg (bns : List Bottleneck) : 0 ≤ avgVS bns := by
  unfold avgVS
  split_ifs
  · norm_num
  · refine div_nonneg (List.sum_nonneg ?_) (by positivity)
    intro x hx
    rcases List.mem_map.mp hx with ⟨bn, _, rfl⟩
    exact verificationScore_nonneg _

theorem pUnver_mem_unit (bns : List Bottleneck) :
    0 ≤ pUnver bns ∧ pUnver bns ≤ 1 := by
  unfold pUnver
  split_ifs with h
  · norm_num
  · have hlen : 0 < bns.length := List.length_pos.mpr h
    have hlen' : (0 : ℝ) < (bns.length : ℝ) := by exact_mod_cast hlen
    constructor
    · exact div_nonneg (by positivity) (le_of_lt hlen')
    · rw [div_le_one hlen']
      exact_mod_cast List.countP_le_length isUnverifiedTag

/-- C6 (amended): for alpha in [0,1] and non-negative raw readiness
levels, the evidence penalty EP = 1 - alpha * p_unver lies in [0,1]
(the penalty reaches 0 exactly at the boundary alpha = 1 with every
bottleneck unverified, so the open interval claimed by the spec is off
at that corner), p_unver lies in [0,1] (defaulting to 0.5 on an empty
bottleneck list), RI is non-negative, and RI_skeptical = RI * EP is at
most RI. -/
theorem readiness_skeptical_le_ri (TRL IRL ORL RCL : ℝ) (bns : List Bottleneck)
    (CI alpha : ℝ) (ha0 : 0 ≤ alpha) (ha1 : alpha ≤ 1)
    (hT : 0 ≤ TRL) (hI : 0 ≤ IRL) (hO : 0 ≤ ORL) (hR : 0 ≤ RCL) :
    0 ≤ pUnver bns ∧ pUnver bns ≤ 1 ∧
    (calculate_readiness_index TRL IRL ORL RCL bns CI alpha).EP =
      1 - alpha * pUnver bns ∧
    0 ≤ (calculate_readiness_index TRL IRL ORL RCL bns CI alpha).EP ∧
    (calculate_readiness_index TRL IRL ORL RCL bns CI alpha).EP ≤ 1 ∧
    0 ≤ (calculate_readiness_index TRL IRL ORL RCL bns CI alpha).RI ∧
    (calculate_readiness_index TRL IRL ORL RCL bns CI alpha).RI_skeptical =
      (calculate_readiness_index TRL IRL ORL RCL bns CI alpha).RI *
      (calculate_readiness_index TRL IRL ORL RCL bns CI alpha).EP ∧
    (calculate_readiness_index TRL IRL ORL RCL bns CI alpha).RI_skeptical ≤
      (calculate_readiness_index TRL IRL ORL RCL bns CI alpha).RI := by
  obtain ⟨hp0, hp1⟩ := pUnver_mem_unit bns
  have hEP : (calculate_readiness_index TRL IRL ORL RCL bns CI alpha).EP =
      1 - alpha * pUnver bns := rfl
  have hRIdef : (calculate_readiness_index TRL IRL ORL RCL bns CI alpha).RI =
      ((TRL * avgVS bns / 9) * (IRL * avgVS bns / 9) * (ORL * avgVS bns / 9) *
        (RCL * avgVS bns / 9)) ^ (0.25 : ℝ) := rfl
  have hsk : (calculate_readiness_index TRL IRL ORL RCL bns CI alpha).RI_skeptical =
      (calculate_readiness_index TRL IRL ORL RCL bns CI alpha).RI *
      (calculate_readiness_index TRL IRL ORL RCL bns CI alpha).EP := rfl
  have havg := avgVS_nonneg bns
  have hEP0 : 0 ≤ (calculate_readiness_index TRL IRL ORL RCL bns CI alpha).EP := by
    rw [hEP]
    have := mul_le_one₀ ha1 hp0 hp1
    linarith
  have hEP1 : (calculate_readiness_index TRL IRL ORL RCL bns CI alpha).EP ≤ 1 := by
    rw [hEP]
    have := mul_nonneg ha0 hp0
    linarith
  have hRI : 0 ≤ (calculate_readiness_index TRL IRL ORL RCL bns CI alpha).RI := by
    rw [hRIdef]
    refine Real.rpow_nonneg ?_ _
    have h1 : 0 ≤ TRL * avgVS bns / 9 := by positivity
    have h2 : 0 ≤ IRL * avgVS bns / 9 := by positivity
    have h3 : 0 ≤ ORL * avgVS bns / 9 := by positivity
    have h4 : 0 ≤ RCL * avgVS bns / 9 := by positivity
    exact mul_nonneg (mul_nonneg (mul_nonneg h1 h2) h3) h4
  refine ⟨hp0, hp1, hEP, hEP0, hEP1, hRI, hsk, ?_⟩
  rw [hsk]
  calc (calculate_readiness_index TRL IRL ORL RCL bns CI alpha).RI *
      (calculate_readiness_index TRL IRL ORL RCL bns CI alpha).EP
      ≤ (calculate_readiness_index TRL IRL ORL RCL bns CI alpha).RI * 1 :=
        mul_le_mul_of_nonneg_left hEP1 hRI
    _ = (calculate_readiness_index TRL IRL ORL RCL bns CI alpha).RI := mul_one _

/-- Witness for C6: the theorem applied at concrete raw levels, an
empty bottleneck list and the default alpha of 0.25. -/
theorem readiness_skeptical_le_ri_witness :
    (calculate_readiness_index 9 8 7 6 [] 0.5 0.25).RI_skeptical ≤
      (calculate_readiness_index 9 8 7 6 [] 0.5 0.25).RI ∧
    0 ≤ (calculate_readiness_index 9 8 7 6 [] 0.5 0.25).EP :=
  ⟨((readiness_skeptical_le_ri 9 8 7 6 [] 0.5 0.25 (by norm_num) (by norm_num)
      (by norm_num) (by norm_num) (by norm_num)
      (by norm_num)).2.2.2.2.2.2.2),
   ((readiness_skeptical_le_ri 9 8 7 6 [] 0.5 0.25 (by norm_num) (by norm_num)
      (by norm_num) (by norm_num) (by norm_num) (by norm_num)).2.2.2.1)⟩

/-- Counterexample for C6 as stated: at alpha = 1 (inside the claimed
range [0,1]) with a single unverified bottleneck (p_unver = 1), the
evidence penalty is exactly 0, so EP does not lie in the claimed open
interval (0,1]. -/
theorem readiness_ep_zero_at_boundary :
    (0 : ℝ) ≤ 1 ∧ (1 : ℝ) ≤ 1 ∧
    pUnver [⟨0, some "unverified"⟩] = 1 ∧
    (calculate_readiness_index 1 1 1 1 [⟨0, some "unverified"⟩] 0 1).EP = 0 ∧
    ¬ (0 < (calculate_readiness_index 1 1 1 1 [⟨0, some "unverified"⟩] 0 1).EP) := by
  have hp : pUnver [⟨0, some "unverified"⟩] = 1 := by
    unfold pUnver
    rw [if_neg (by simp)]
    simp [List.countP_cons, isUnverifiedTag]
  have hEP : (calculate_readiness_index 1 1 1 1 [⟨0, some "unverified"⟩] 0 1).EP =
      1 - 1 * pUnver [⟨0, some "unverified"⟩] := rfl
  refine ⟨by norm_num, by norm_num, hp, ?_, ?_⟩
  · rw [hEP, hp]; norm_num
  · rw [hEP, hp]; norm_num

/-- Association-list lookup misses every key that no stored pair
carries. -/
theorem lookup_eq_none_of_forall {R : Type} (jobId : String) :
    ∀ (l : List (String × AnalysisJob R)), (∀ p ∈ l, p.1 ≠ jobId) →
      l.lookup jobId = none
  | [], _ => rfl
  | (k, v) :: t, h => by
      rw [List.lookup_cons]
      have hk : (jobId == k) = false := by
        have := h (k, v) (by simp)
        simp only [ne_eq] at this
        simp [beq_eq_false_iff_ne]
        intro heq
        exact this heq.symm
      rw [hk]
      exact lookup_eq_none_of_forall jobId t (fun p hp => h p (by simp [hp]))

/-- C8 (amended): create_job performs no emptiness validation: for
every descriptor sequence, including the empty one, it returns a job
holding one Pending task per descriptor preserving input order,
registers the job in the manager registry under the supplied
identifier, and starts no analysis work (every task is Pending with no
result, error or timestamps, and the job itself is Pending). -/
theorem create_job_spec {R : Type} (mgr : JobManagerState R) (jobId : String)
    (descs : List CompanyDesc) :
    (create_job mgr jobId descs).2.job_id = jobId ∧
    (create_job mgr jobId descs).2.companies = descs.map mkTask ∧
    (create_job mgr jobId descs).2.companies.length = descs.length ∧
    (∀ t ∈ (create_job mgr jobId descs).2.companies,
      t.status = JobStatus.pending ∧ t.result = none ∧ t.error = none ∧
      t.started_at = none ∧ t.completed_at = none) ∧
    (create_job mgr jobId descs).2.status = JobStatus.pending ∧
    (create_job mgr jobId descs).2.started_at = none ∧
    (create_job mgr jobId descs).2.completed_at = none ∧
    get_job (create_job mgr jobId descs).1 jobId =
      some (create_job mgr jobId descs).2 := by
  refine ⟨rfl, rfl, by simp [create_job], ?_, rfl, rfl, rfl, ?_⟩
  · intro t ht
    rcases List.mem_map.mp ht with ⟨c, _, rfl⟩
    exact ⟨rfl, rfl, rfl, rfl, rfl⟩
  · simp [get_job, create_job, List.lookup_cons]

/-- Counterexample for C8 as stated: called on the empty descriptor
sequence, create_job does not fail with InvalidInput; it returns
normally (it is a total function with no error channel, mirroring the
absence of any validation in the source) and registers a job with zero
tasks. -/
theorem create_job_empty_returns_job :
    (create_job (⟨[]⟩ : JobManagerState ℕ) "job-1" []).2.companies = [] ∧
    (create_job (⟨[]⟩ : JobManagerState ℕ) "job-1" []).2.status =
      JobStatus.pending ∧
    get_job (create_job (⟨[]⟩ : JobManagerState ℕ) "job-1" []).1 "job-1" =
      some (create_job (⟨[]⟩ : JobManagerState ℕ) "job-1" []).2 := by
  refine ⟨rfl, rfl, ?_⟩
  simp [get_job, create_job, List.lookup_cons]

/-- C9: for a job id absent from the registry, the entry phase of
process_job fails with the not-found error (raised before any state is
touched), while get_job on the same id returns the absent option rather
than raising. -/
theorem process_job_unknown_id {R : Type} (mgr : JobManagerState R)
    (jobId : String) (h : ∀ p ∈ mgr.jobs, p.1 ≠ jobId) :
    get_job mgr jobId = none ∧
    process_job_entry mgr jobId =
      Except.error ("Job " ++ jobId ++ " not found") := by
  have hnone : get_job mgr jobId = none :=
    lookup_eq_none_of_forall jobId mgr.jobs h
  refine ⟨hnone, ?_⟩
  unfold process_job_entry
  rw [hnone]

/-- Witness for C9: the theorem applied to an empty registry and a
concrete unknown id. -/
theorem process_job_unknown_id_witness :
    get_job (⟨[]⟩ : JobManagerState ℕ) "missing" = none ∧
    process_job_entry (⟨[]⟩ : JobManagerState ℕ) "missing" =
      Except.error ("Job " ++ "missing" ++ " not found") :=
  process_job_unknown_id (⟨[]⟩ : JobManagerState ℕ) "missing" (by simp)

/-! Invariant machinery for the scheduler semantics. -/

/-- Additive formulation of the effect of a point update on countP. -/
theorem countP_set_add {α : Type} (p : α → Bool) (l : List α) (i : ℕ) (a : α)
    (h : i < l.length) :
    (l.set i a).countP p + (if p (l.get ⟨i, h⟩) then 1 else 0) =
    l.countP p + (if p a then 1 else 0) := by
  rw [List.countP_set p l i a h]
  have hle : (if p l[i] = true then 1 else 0) ≤ l.countP p := by
    split_ifs with hp
    · have hmem : l[i] ∈ l := List.getElem_mem h
      have := List.countP_pos_iff.mpr ⟨l[i], hmem, hp⟩
      omega
    · exact Nat.zero_le _
  have hg : l.get ⟨i, h⟩ = l[i] := rfl
  rw [hg]
  omega

theorem inv_init {R : Type} (C : ℕ) (out : ℕ → Except String R)
    (ts0 : List (CompanyTask R)) : Inv C out ts0 (initState C ts0) := by
  have hlen : (initState C ts0).tasks.length = ts0.length := by
    simp [initState]
  refine ⟨hlen, ?_, ?_⟩
  · have hzero : heldCount (initState C ts0) = 0 := by
      rw [heldCount, List.countP_eq_zero]
      intro a ha
      rcases List.mem_map.mp ha with ⟨t, _, rfl⟩
      simp
    rw [hzero]
    simp [initState]
  · intro i h
    have hget : (initState C ts0).tasks.get ⟨i, h⟩ =
        (Phase.idle, ts0.get ⟨i, hlen ▸ h⟩) := by
      rw [List.get_eq_getElem]
      simp [initState, List.getElem_map]
    rw [hget]
    exact rfl

theorem taskInv_of_fst_idle {R : Type} {o : Except String R} {t0 : CompanyTask R}
    {x : Phase × CompanyTask R} (hx : x.1 = Phase.idle) (hinv : TaskInv o t0 x) :
    x.2 = t0 := by
  rcases x with ⟨ph, t⟩
  have : ph = Phase.idle := hx
  subst this
  exact hinv

theorem taskInv_of_fst_holding {R : Type} {o : Except String R}
    {t0 : CompanyTask R} {x : Phase × CompanyTask R}
    (hx : x.1 = Phase.holding) (hinv : TaskInv o t0 x) : x.2 = startTask t0 := by
  rcases x with ⟨ph, t⟩
  have : ph = Phase.holding := hx
  subst this
  exact hinv

theorem taskInv_of_fst_doneHolding {R : Type} {o : Except String R}
    {t0 : CompanyTask R} {x : Phase × CompanyTask R}
    (hx : x.1 = Phase.doneHolding) (hinv : TaskInv o t0 x) :
    x.2 = applyOutcome o (startTask t0) := by
  rcases x with ⟨ph, t⟩
  have : ph = Phase.doneHolding := hx
  subst this
  exact hinv

theorem taskInv_of_fst_released {R : Type} {o : Except String R}
    {t0 : CompanyTask R} {x : Phase × CompanyTask R}
    (hx : x.1 = Phase.released) (hinv : TaskInv o t0 x) :
    x.2 = applyOutcome o (startTask t0) := by
  rcases x with ⟨ph, t⟩
  have : ph = Phase.released := hx
  subst this
  exact hinv

theorem inv_step {R : Type} {C : ℕ} {out : ℕ → Except String R}
    {ts0 : List (CompanyTask R)} {s s' : SchedState R}
    (hinv : Inv C out ts0 s) (hstep : Step out s s') : Inv C out ts0 s' := by
  obtain ⟨hlen, hsem, htask⟩ := hinv
  cases hstep with
  | acquire i h hphase hsem0 =>
      have hlen' : (s.tasks.set i
          (Phase.holding, startTask (s.tasks.get ⟨i, h⟩).2)).length =
          ts0.length := by rw [List.length_set]; exact hlen
      have hcount := countP_set_add
        (fun p => p.1 == Phase.holding || p.1 == Phase.doneHolding) s.tasks i
        (Phase.holding, startTask (s.tasks.get ⟨i, h⟩).2) h
      simp only [hphase] at hcount
      simp at hcount
      refine ⟨hlen', ?_, ?_⟩
      · simp only [heldCount, List.get_eq_getElem] at hsem ⊢
        omega
      · intro j hj
        have h2 : (s.tasks.get ⟨i, h⟩).2 = ts0.get ⟨i, hlen ▸ h⟩ :=
          taskInv_of_fst_idle hphase (htask i h)
        by_cases hij : i = j
        · subst hij
          simp only [List.get_eq_getElem, List.getElem_set_self]
          rw [List.get_eq_getElem] at h2
          rw [h2]
          exact rfl
        · simp only [List.get_eq_getElem, List.getElem_set_ne hij]
          have := htask j (by
            rw [List.length_set] at hj
            exact hj)
          rw [List.get_eq_getElem] at this
          exact this
  | finish i h hphase =>
      have hlen' : (s.tasks.set i
          (Phase.doneHolding, applyOutcome (out i) (s.tasks.get ⟨i, h⟩).2)).length =
          ts0.length := by rw [List.length_set]; exact hlen
      have hcount := countP_set_add
        (fun p => p.1 == Phase.holding || p.1 == Phase.doneHolding) s.tasks i
        (Phase.doneHolding, applyOutcome (out i) (s.tasks.get ⟨i, h⟩).2) h
      simp only [hphase] at hcount
      simp at hcount
      refine ⟨hlen', ?_, ?_⟩
      · simp only [heldCount, List.get_eq_getElem] at hsem ⊢
        omega
      · intro j hj
        have h2 : (s.tasks.get ⟨i, h⟩).2 = startTask (ts0.get ⟨i, hlen ▸ h⟩) :=
          taskInv_of_fst_holding hphase (htask i h)
        by_cases hij : i = j
        · subst hij
          simp only [List.get_eq_getElem, List.getElem_set_self]
          rw [List.get_eq_getElem] at h2
          rw [h2]
          exact rfl
        · simp only [List.get_eq_getElem, List.getElem_set_ne hij]
          have := htask j (by
            rw [List.length_set] at hj
            exact hj)
          rw [List.get_eq_getElem] at this
          exact this
  | release i h hphase =>
      have hlen' : (s.tasks.set i
          (Phase.released, (s.tasks.get ⟨i, h⟩).2)).length = ts0.length := by
        rw [List.length_set]; exact hlen
      have hcount := countP_set_add
        (fun p => p.1 == Phase.holding || p.1 == Phase.doneHolding) s.tasks i
        (Phase.released, (s.tasks.get ⟨i, h⟩).2) h
      simp only [hphase] at hcount
      simp at hcount
      refine ⟨hlen', ?_, ?_⟩
      · simp only [heldCount, List.get_eq_getElem] at hsem ⊢
        omega
      · intro j hj
        have h2 : (s.tasks.get ⟨i, h⟩).2 =
            applyOutcome (out i) (startTask (ts0.get ⟨i, hlen ▸ h⟩)) :=
          taskInv_of_fst_doneHolding hphase (htask i h)
        by_cases hij : i = j
        · subst hij
          simp only [List.get_eq_getElem, List.getElem_set_self]
          rw [List.get_eq_getElem] at h2
          rw [h2]
          exact rfl
        · simp only [List.get_eq_getElem, List.getElem_set_ne hij]
          have := htask j (by
            rw [List.length_set] at hj
            exact hj)
          rw [List.get_eq_getElem] at this
          exact this

theorem inv_reach {R : Type} {C : ℕ} {out : ℕ → Except String R}
    {ts0 : List (CompanyTask R)} {s s' : SchedState R}
    (hreach : Reach out s s') (hinv : Inv C out ts0 s) : Inv C out ts0 s' := by
  induction hreach with
  | refl => exact hinv
  | tail _ hstep ih => exact inv_step ih hstep

theorem reach_init_inv {R : Type} {C : ℕ} {out : ℕ → Except String R}
    {ts0 : List (CompanyTask R)} {s : SchedState R}
    (hreach : Reach out (initState C ts0) s) : Inv C out ts0 s :=
  inv_reach hreach (inv_init C out ts0)

theorem processingCount_le_heldCount {R : Type} {C : ℕ}
    {out : ℕ → Except String R} {ts0 : List (CompanyTask R)} {s : SchedState R}
    (hinv : Inv C out ts0 s)
    (hpend : ∀ t ∈ ts0, t.status = JobStatus.pending) :
    processingCount s ≤ heldCount s := by
  apply List.countP_mono_left
  intro x hx hpx
  rcases List.mem_iff_get.mp hx with ⟨n, rfl⟩
  obtain ⟨j, hj⟩ := n
  have hti := hinv.task_inv j hj
  cases hph : (s.tasks.get ⟨j, hj⟩).1 with
  | idle =>
      have h2 := taskInv_of_fst_idle hph hti
      rw [h2] at hpx
      rw [hpend _ (List.get_mem ts0 j _)] at hpx
      simp at hpx
  | holding => simp [hph]
  | doneHolding => simp [hph]
  | released =>
      have h2 := taskInv_of_fst_released hph hti
      rw [h2] at hpx
      cases hout : out j with
      | ok r =>
          rw [hout] at hpx
          simp [applyOutcome] at hpx
      | error e =>
          rw [hout] at hpx
          simp [applyOutcome] at hpx

/-- C3: for every job of N tasks with N greater than the limiter
capacity C, in every state reachable during process_job at most C tasks
are simultaneously in the Processing state, and free slots plus held
slots always equal C (each task acquires one slot before entering
Processing and the slot is returned on every exit path). -/
theorem concurrency_bound {R : Type} (C : ℕ) (out : ℕ → Except String R)
    (ts0 : List (CompanyTask R)) (s : SchedState R) (hN : C < ts0.length)
    (hpend : ∀ t ∈ ts0, t.status = JobStatus.pending)
    (hreach : Reach out (initState C ts0) s) :
    processingCount s ≤ C ∧ s.sem + heldCount s = C ∧
      (Complete s → s.sem = C) := by
  have hinv := reach_init_inv hreach
  have h1 := processingCount_le_heldCount hinv hpend
  have h2 := hinv.sem_le
  refine ⟨by omega, h2, ?_⟩
  intro hcomp
  have hzero : heldCount s = 0 := by
    rw [heldCount, List.countP_eq_zero]
    intro p hp
    simp [hcomp p hp]
  omega

/-- Witness for C3: the bound theorem applied to a two-task job with
capacity 1 at the initial state. -/
theorem concurrency_bound_witness :
    processingCount (initState 1
      [(mkTask ⟨"a", none⟩ : CompanyTask ℕ), mkTask ⟨"b", none⟩]) ≤ 1 ∧
    (initState 1
      [(mkTask ⟨"a", none⟩ : CompanyTask ℕ), mkTask ⟨"b", none⟩]).sem +
      heldCount (initState 1
        [(mkTask ⟨"a", none⟩ : CompanyTask ℕ), mkTask ⟨"b", none⟩]) = 1 :=
  ⟨(concurrency_bound 1 (fun _ => Except.ok 0)
      [(mkTask ⟨"a", none⟩ : CompanyTask ℕ), mkTask ⟨"b", none⟩] _
      (by norm_num)
      (by intro t ht; fin_cases ht <;> rfl)
      Relation.ReflTransGen.refl).1,
   (concurrency_bound 1 (fun _ => Except.ok 0)
      [(mkTask ⟨"a", none⟩ : CompanyTask ℕ), mkTask ⟨"b", none⟩] _
      (by norm_num)
      (by intro t ht; fin_cases ht <;> rfl)
      Relation.ReflTransGen.refl).2.1⟩

/-- In any completed state the final task records are exactly the
outcome applied to the started initial record, task by task. -/
theorem complete_tasks_eq {R : Type} {C : ℕ} {out : ℕ → Except String R}
    {ts0 : List (CompanyTask R)} {s : SchedState R}
    (hinv : Inv C out ts0 s) (hcomp : Complete s) :
    s.tasks.map Prod.snd = List.ofFn (fun j : Fin ts0.length =>
      applyOutcome (out j) (startTask (ts0.get j))) := by
  apply List.ext_get
  · simp [List.length_map, hinv.len, List.length_ofFn]
  · intro n h1 h2
    have hn : n < s.tasks.length := by simpa using h1
    have hph : (s.tasks.get ⟨n, hn⟩).1 = Phase.released :=
      hcomp _ (List.get_mem _ _ _)
    have h2' := taskInv_of_fst_released hph (hinv.task_inv n hn)
    rw [List.get_eq_getElem, List.get_eq_getElem, List.getElem_map,
      List.getElem_ofFn]
    rw [List.get_eq_getElem] at h2'
    exact h2'

theorem run_one {R : Type} (out : ℕ → Except String R) (s : SchedState R)
    (i : ℕ) (h : i < s.tasks.length)
    (hidle : (s.tasks.get ⟨i, h⟩).1 = Phase.idle) (hsem : 0 < s.sem) :
    Reach out s
      { sem := s.sem,
        tasks := s.tasks.set i (Phase.released,
          applyOutcome (out i) (startTask (s.tasks.get ⟨i, h⟩).2)) } := by
  have step1 : Step out s
      { sem := s.sem - 1,
        tasks := s.tasks.set i (Phase.holding, startTask (s.tasks.get ⟨i, h⟩).2) } :=
    Step.acquire s i h hidle hsem
  have hA : i < (s.tasks.set i
      (Phase.holding, startTask (s.tasks.get ⟨i, h⟩).2)).length := by
    rw [List.length_set]; exact h
  have eA : (s.tasks.set i
      (Phase.holding, startTask (s.tasks.get ⟨i, h⟩).2)).get ⟨i, hA⟩ =
      (Phase.holding, startTask (s.tasks.get ⟨i, h⟩).2) := by
    rw [List.get_eq_getElem]
    exact List.getElem_set_self _
  have step2 : Step out
      { sem := s.sem - 1,
        tasks := s.tasks.set i (Phase.holding, startTask (s.tasks.get ⟨i, h⟩).2) }
      { sem := s.sem - 1,
        tasks := s.tasks.set i (Phase.doneHolding,
          applyOutcome (out i) (startTask (s.tasks.get ⟨i, h⟩).2)) } := by
    have hstep := @Step.finish R out
      (⟨s.sem - 1,
        s.tasks.set i (Phase.holding, startTask (s.tasks.get ⟨i, h⟩).2)⟩ :
          SchedState R) i hA (by rw [eA])
    rw [eA] at hstep
    simpa [List.set_set] using hstep
  have hB : i < (s.tasks.set i (Phase.doneHolding,
      applyOutcome (out i) (startTask (s.tasks.get ⟨i, h⟩).2))).length := by
    rw [List.length_set]; exact h
  have eB : (s.tasks.set i (Phase.doneHolding,
      applyOutcome (out i) (startTask (s.tasks.get ⟨i, h⟩).2))).get ⟨i, hB⟩ =
      (Phase.doneHolding,
        applyOutcome (out i) (startTask (s.tasks.get ⟨i, h⟩).2)) := by
    rw [List.get_eq_getElem]
    exact List.getElem_set_self _
  have step3 : Step out
      { sem := s.sem - 1,
        tasks := s.tasks.set i (Phase.doneHolding,
          applyOutcome (out i) (startTask (s.tasks.get ⟨i, h⟩).2)) }
      { sem := s.sem,
        tasks := s.tasks.set i (Phase.released,
          applyOutcome (out i) (startTask (s.tasks.get ⟨i, h⟩).2)) } := by
    have hstep := @Step.release R out
      (⟨s.sem - 1,
        s.tasks.set i (Phase.doneHolding,
          applyOutcome (out i) (startTask (s.tasks.get ⟨i, h⟩).2))⟩ :
          SchedState R) i hB (by rw [eB])
    rw [eB] at hstep
    have hsem' : s.sem - 1 + 1 = s.sem := Nat.succ_pred_eq_of_pos hsem
    simpa [List.set_set, hsem'] using hstep
  exact Relation.ReflTransGen.head step1
    (Relation.ReflTransGen.head step2
      (Relation.ReflTransGen.head step3 Relation.ReflTransGen.refl))

theorem seq_zero {R : Type} (C : ℕ) (out : ℕ → Except String R)
    (ts0 : List (CompanyTask R)) : seqState C out ts0 0 = initState C ts0 := by
  unfold seqState initState
  congr 1
  apply List.ext_get
  · simp
  · intro n h1 h2
    rw [List.get_eq_getElem, List.get_eq_getElem, List.getElem_ofFn,
      List.getElem_map]
    simp

theorem seq_succ {R : Type} (C : ℕ) (out : ℕ → Except String R)
    (ts0 : List (CompanyTask R)) (n : ℕ) (hn : n < ts0.length) (hC : 0 < C) :
    Reach out (seqState C out ts0 n) (seqState C out ts0 (n + 1)) := by
  have hlen : n < (seqState C out ts0 n).tasks.length := by
    simp [seqState]
    exact hn
  have hget : (seqState C out ts0 n).tasks.get ⟨n, hlen⟩ =
      (Phase.idle, ts0.get ⟨n, hn⟩) := by
    rw [List.get_eq_getElem]
    simp only [seqState, List.getElem_ofFn]
    simp
  have hrun := run_one out (seqState C out ts0 n) n hlen (by rw [hget]) hC
  rw [hget] at hrun
  have heq : SchedState.mk ((seqState C out ts0 n).sem)
      ((seqState C out ts0 n).tasks.set n (Phase.released,
        applyOutcome (out n) (startTask (Phase.idle, ts0.get ⟨n, hn⟩).2))) =
      seqState C out ts0 (n + 1) := by
    unfold seqState
    congr 1
    apply List.ext_get
    · simp
    · intro j h1 h2
      simp only [List.get_eq_getElem]
      have hj : j < ts0.length := by simpa using h2
      by_cases hjn : n = j
      · subst hjn
        rw [List.getElem_set_self, List.getElem_ofFn]
        simp
      · rw [List.getElem_set_ne hjn, List.getElem_ofFn, List.getElem_ofFn]
        by_cases hlt : j < n
        · have hlt' : j < n + 1 := by omega
          simp [hlt, hlt']
        · have hlt' : ¬ j < n + 1 := by omega
          simp [hlt, hlt']
  rw [heq] at hrun
  exact hrun

theorem seq_reach {R : Type} (C : ℕ) (out : ℕ → Except String R)
    (ts0 : List (CompanyTask R)) (hC : 0 < C) :
    ∀ n, n ≤ ts0.length → Reach out (initState C ts0) (seqState C out ts0 n)
  | 0, _ => by
      rw [seq_zero]
      exact Relation.ReflTransGen.refl
  | n + 1, h => by
      refine Relation.ReflTransGen.trans
        (seq_reach C out ts0 hC n (Nat.le_of_succ_le h)) ?_
      exact seq_succ C out ts0 n (Nat.lt_of_succ_le h) hC

theorem seq_complete {R : Type} (C : ℕ) (out : ℕ → Except String R)
    (ts0 : List (CompanyTask R)) :
    Complete (seqState C out ts0 ts0.length) := by
  intro p hp
  simp only [seqState] at hp
  rcases (List.mem_ofFn _ _).mp hp with ⟨j, rfl⟩
  simp [j.isLt]

/-- Every job admits a run to a fully terminated state: the gather call
of process_job can return with every task released. -/
theorem exists_complete_run {R : Type} (C : ℕ) (out : ℕ → Except String R)
    (ts0 : List (CompanyTask R)) (hC : 0 < C) :
    ∃ s, Reach out (initState C ts0) s ∧ Complete s :=
  ⟨seqState C out ts0 ts0.length,
   seq_reach C out ts0 hC ts0.length le_rfl,
   seq_complete C out ts0⟩

/-- C1: when analysing company i raises an exception (its outcome is an
error e), every complete run of the job records the stringified
exception on task i with status Failed and completion marked, every
task's final record (siblings included) is the deterministic function
of its own initial record and its own outcome alone - so the failure
affects no sibling's execution, status or result - and a complete run
exists: process_job drives every task to a terminal state and returns
instead of propagating the exception. -/
theorem task_failure_isolated {R : Type} (C : ℕ) (out : ℕ → Except String R)
    (ts0 : List (CompanyTask R)) (i : ℕ) (e : String) (hC : 0 < C)
    (hi : i < ts0.length) (he : out i = Except.error e) :
    (∀ s : SchedState R, Reach out (initState C ts0) s → Complete s →
      s.tasks.map Prod.snd = List.ofFn (fun j : Fin ts0.length =>
        applyOutcome (out j) (startTask (ts0.get j))) ∧
      ∃ t, (s.tasks.map Prod.snd)[i]? = some t ∧ t.error = some e ∧
        t.status = JobStatus.failed ∧ t.completed_at = some ()) ∧
    (∃ s, Reach out (initState C ts0) s ∧ Complete s) := by
  constructor
  · intro s hr hc
    have hinv := reach_init_inv hr
    have hofn := complete_tasks_eq hinv hc
    refine ⟨hofn, applyOutcome (Except.error e) (startTask (ts0.get ⟨i, hi⟩)),
      ?_, rfl, rfl, rfl⟩
    rw [hofn, List.getElem?_ofFn]
    simp only [List.ofFnNthVal, hi, dif_pos]
    rw [he]
  · exact exists_complete_run C out ts0 hC

/-- Witness for C1: a one-task job with capacity 1 whose only outcome
is the error boom, with the theorem applied at its sequential complete
run. -/
theorem task_failure_isolated_witness :
    (∃ t, ((seqState 1 (fun _ => Except.error "boom")
        [(mkTask ⟨"a", none⟩ : CompanyTask ℕ)] 1).tasks.map Prod.snd)[0]? =
        some t ∧ t.error = some "boom" ∧ t.status = JobStatus.failed ∧
        t.completed_at = some ()) ∧
    (∃ s, Reach (fun _ => Except.error "boom")
      (initState 1 [(mkTask ⟨"a", none⟩ : CompanyTask ℕ)]) s ∧ Complete s) :=
  ⟨((task_failure_isolated 1 (fun _ => Except.error "boom")
      [(mkTask ⟨"a", none⟩ : CompanyTask ℕ)] 0 "boom"
      (by norm_num) (by norm_num) rfl).1
      (seqState 1 (fun _ => Except.error "boom")
        [(mkTask ⟨"a", none⟩ : CompanyTask ℕ)] 1)
      (seq_reach 1 (fun _ => Except.error "boom")
        [(mkTask ⟨"a", none⟩ : CompanyTask ℕ)] (by norm_num) 1 (by norm_num))
      (seq_complete 1 (fun _ => Except.error "boom")
        [(mkTask ⟨"a", none⟩ : CompanyTask ℕ)])).2,
   (task_failure_isolated 1 (fun _ => Except.error "boom")
      [(mkTask ⟨"a", none⟩ : CompanyTask ℕ)] 0 "boom"
      (by norm_num) (by norm_num) rfl).2⟩

/-- C2: on return of process_job every task of the finalized job is in
a terminal state (Completed or Failed), the job's completed_at is set,
and the job status is Completed if and only if every task completed,
otherwise Failed. -/
theorem process_job_terminal_states {R : Type} (C : ℕ)
    (out : ℕ → Except String R) (ts0 : List (CompanyTask R))
    (job : AnalysisJob R) (s : SchedState R)
    (hreach : Reach out (initState C ts0) s) (hcomp : Complete s) :
    (∀ t ∈ (finalize_job job (s.tasks.map Prod.snd)).companies,
      t.status = JobStatus.completed ∨ t.status = JobStatus.failed) ∧
    (finalize_job job (s.tasks.map Prod.snd)).completed_at = some () ∧
    ((finalize_job job (s.tasks.map Prod.snd)).status = JobStatus.completed ↔
      ∀ t ∈ (finalize_job job (s.tasks.map Prod.snd)).companies,
        t.status = JobStatus.completed) ∧
    ((finalize_job job (s.tasks.map Prod.snd)).status = JobStatus.completed ∨
      (finalize_job job (s.tasks.map Prod.snd)).status = JobStatus.failed) := by
  have hinv := reach_init_inv hreach
  have hofn := complete_tasks_eq hinv hcomp
  have hcompanies : (finalize_job job (s.tasks.map Prod.snd)).companies =
      s.tasks.map Prod.snd := rfl
  have hterm : ∀ t ∈ (finalize_job job (s.tasks.map Prod.snd)).companies,
      t.status = JobStatus.completed ∨ t.status = JobStatus.failed := by
    intro t ht
    rw [hcompanies, hofn] at ht
    rcases (List.mem_ofFn _ _).mp ht with ⟨j, rfl⟩
    show (applyOutcome (out (j : ℕ)) (startTask (ts0.get j))).status =
        JobStatus.completed ∨
      (applyOutcome (out (j : ℕ)) (startTask (ts0.get j))).status =
        JobStatus.failed
    cases hout : out (j : ℕ) with
    | ok r => left; rfl
    | error err => right; rfl
  refine ⟨hterm, rfl, ?_, ?_⟩
  · by_cases hall : (s.tasks.map Prod.snd).all
        (fun c => c.status == JobStatus.completed) = true
    · have hstatus : (finalize_job job (s.tasks.map Prod.snd)).status =
          JobStatus.completed := by
        unfold finalize_job
        simp only [hall, if_true]
      rw [hstatus]
      simp only [true_iff]
      intro t ht
      rw [hcompanies] at ht
      have := List.all_eq_true.mp hall t ht
      simpa using this
    · have hstatus : (finalize_job job (s.tasks.map Prod.snd)).status =
          JobStatus.failed := by
        unfold finalize_job
        simp only [if_neg hall]
      rw [hstatus]
      constructor
      · intro hcontra
        exact absurd hcontra (by simp)
      · intro hforall
        exfalso
        apply hall
        rw [List.all_eq_true]
        intro t ht
        have := hforall t (by rw [hcompanies]; exact ht)
        simp [this]
  · by_cases hall : (s.tasks.map Prod.snd).all
        (fun c => c.status == JobStatus.completed) = true
    · left
      unfold finalize_job
      simp only [hall, if_true]
    · right
      unfold finalize_job
      simp only [if_neg hall]

/-- Witness for C2: the theorem applied to the sequential complete run
of a one-task job with capacity 1. -/
theorem process_job_terminal_states_witness :
    (∀ t ∈ (finalize_job
      (AnalysisJob.mk "j" [(mkTask ⟨"a", none⟩ : CompanyTask ℕ)]
        JobStatus.processing (some ()) none)
      ((seqState 1 (fun _ => Except.ok 0)
        [(mkTask ⟨"a", none⟩ : CompanyTask ℕ)] 1).tasks.map Prod.snd)).companies,
      t.status = JobStatus.completed ∨ t.status = JobStatus.failed) ∧
    (finalize_job
      (AnalysisJob.mk "j" [(mkTask ⟨"a", none⟩ : CompanyTask ℕ)]
        JobStatus.processing (some ()) none)
      ((seqState 1 (fun _ => Except.ok 0)
        [(mkTask ⟨"a", none⟩ : CompanyTask ℕ)] 1).tasks.map
          Prod.snd)).completed_at = some () := by
  have happ := process_job_terminal_states 1 (fun _ => Except.ok 0)
    [(mkTask ⟨"a", none⟩ : CompanyTask ℕ)]
    (AnalysisJob.mk "j" [(mkTask ⟨"a", none⟩ : CompanyTask ℕ)]
      JobStatus.processing (some ()) none)
    (seqState 1 (fun _ => Except.ok 0) [(mkTask ⟨"a", none⟩ : CompanyTask ℕ)] 1)
    (seq_reach 1 (fun _ => Except.ok 0)
      [(mkTask ⟨"a", none⟩ : CompanyTask ℕ)] (by norm_num) 1 (by norm_num))
    (seq_complete 1 (fun _ => Except.ok 0)
      [(mkTask ⟨"a", none⟩ : CompanyTask ℕ)])
  exact ⟨happ.1, happ.2.1⟩

/-- C10: create_job on an empty company list succeeds with a zero-task
job, the scheduler state of that job is complete at once (the gather
over zero attempts returns immediately), process_job finalizes it with
status Completed - the all-tasks-Completed check is vacuously true -
and its progress is all zeros with percent 0. -/
theorem empty_job_completed :
    (create_job (⟨[]⟩ : JobManagerState ℕ) "job-0" []).2.companies = [] ∧
    Complete (initState max_concurrent_analyses
      ((create_job (⟨[]⟩ : JobManagerState ℕ) "job-0" []).2.companies)) ∧
    Reach (fun _ => Except.ok (0 : ℕ))
      (initState max_concurrent_analyses
        ((create_job (⟨[]⟩ : JobManagerState ℕ) "job-0" []).2.companies))
      (initState max_concurrent_analyses
        ((create_job (⟨[]⟩ : JobManagerState ℕ) "job-0" []).2.companies)) ∧
    (finalize_job (create_job (⟨[]⟩ : JobManagerState ℕ) "job-0" []).2
      ((initState max_concurrent_analyses
        ((create_job (⟨[]⟩ : JobManagerState ℕ) "job-0" []).2.companies)).tasks.map
          Prod.snd)).status = JobStatus.completed ∧
    (finalize_job (create_job (⟨[]⟩ : JobManagerState ℕ) "job-0" []).2
      ((initState max_concurrent_analyses
        ((create_job (⟨[]⟩ : JobManagerState ℕ) "job-0" []).2.companies)).tasks.map
          Prod.snd)).completed_at = some () ∧
    progress (finalize_job (create_job (⟨[]⟩ : JobManagerState ℕ) "job-0" []).2
      ((initState max_concurrent_analyses
        ((create_job (⟨[]⟩ : JobManagerState ℕ) "job-0" []).2.companies)).tasks.map
          Prod.snd)) = Progress.mk 0 0 0 0 0 0 := by
  refine ⟨rfl, ?_, Relation.ReflTransGen.refl, rfl, rfl, ?_⟩
  · intro p hp
    simp [initState, create_job] at hp
  · simp [progress, finalize_job, create_job, initState]

end SBV
